import Mathlib

/-!
Shallow embedding of the preemptive priority scheduler in
`kernel/aster-nix/src/sched/priority_scheduler.rs`, together with proofs of
the specified properties.

The per-CPU run queue, the scheduling entity, and the time slice are
translated directly from the Rust source.  The runnable unit's Affinity
Cell (`AtomicCpuId` with `set_if_is_none` / `set_to_none`) lives outside the
excerpted sources; it is modelled from the spec's compare-and-set contract.
Rust's in-place mutation becomes explicit state passing: each operation
returns its result paired with the updated state.
-/

namespace PrioritySched

/-- `TimeSlice` from the source: a tick counter `elapsed_ticks`
(`u32` in Rust; it is kept in `[0, 100)` by `elapse`, so `Nat` is exact). -/
structure TimeSlice where
  elapsed_ticks : Nat
  deriving Repr, DecidableEq

/-- `TimeSlice::DEFAULT_TIME_SLICE = 100`. -/
def DEFAULT_TIME_SLICE : Nat := 100

/-- `TimeSlice::new()`: counter starts at 0. -/
def TimeSlice.new : TimeSlice := ⟨0⟩

/-- `TimeSlice::elapse`: `elapsed_ticks = (elapsed_ticks + 1) % 100`;
returns `true` iff the new counter is 0.  Result paired with new state. -/
def TimeSlice.elapse (t : TimeSlice) : Bool × TimeSlice :=
  let e := (t.elapsed_ticks + 1) % DEFAULT_TIME_SLICE
  (e == 0, ⟨e⟩)

/-- A runnable unit (the external `T : PreemptSchedInfo`): an identity plus
a priority.  `PreemptSchedInfo::priority` is the stored priority. -/
structure Runnable where
  id : Nat
  priority : Nat
  deriving Repr, DecidableEq

/-- `REAL_TIME_TASK_PRIORITY = Priority::new(100)`. -/
def REAL_TIME_TASK_PRIORITY : Nat := 100

/-- `PreemptSchedInfo::is_real_time`: `priority() < REAL_TIME_TASK_PRIORITY`. -/
def Runnable.is_real_time (r : Runnable) : Bool :=
  r.priority < REAL_TIME_TASK_PRIORITY

/-- `PreemptSchedEntity`: a runnable unit together with its time slice. -/
structure Entity where
  runnable : Runnable
  time_slice : TimeSlice
  deriving Repr, DecidableEq

/-- `PreemptSchedEntity::new`: wraps a runnable with a default (zero) slice. -/
def Entity.new (r : Runnable) : Entity := ⟨r, TimeSlice.new⟩

/-- `PreemptSchedEntity::is_real_time`: delegates to the runnable. -/
def Entity.is_real_time (e : Entity) : Bool := e.runnable.is_real_time

/-- `PreemptSchedEntity::tick`: delegates to `TimeSlice::elapse`. -/
def Entity.tick (e : Entity) : Bool × Entity :=
  let p := e.time_slice.elapse
  (p.1, ⟨e.runnable, p.2⟩)

/-- `UpdateFlags` from `ostd::task::scheduler` (declared outside the
excerpt; the source matches on `Tick` vs. everything else). -/
inductive UpdateFlags where
  | Tick
  | Yield
  | Wait
  deriving Repr, DecidableEq

/-- `EnqueueFlags` (declared outside the excerpt; in the source it is only
inspected by a debug assertion distinguishing a fresh spawn from a wake). -/
inductive EnqueueFlags where
  | Spawn
  | Wake
  deriving Repr, DecidableEq

/-- `PreemptRunQueue`: the current slot plus the two FIFOs
(`VecDeque` becomes a list whose head is the front). -/
structure RunQueue where
  current : Option Entity
  real_time_entities : List Entity
  normal_entities : List Entity
  deriving Repr, DecidableEq

/-- `PreemptRunQueue::new()`. -/
def RunQueue.new : RunQueue := ⟨none, [], []⟩

/-- `LocalRunQueue::update_current` for `PreemptRunQueue`.  On `Tick`:
`false` when idle, otherwise `current.tick() || (!current.is_real_time()
&& !real_time_entities.is_empty())`; any other flag yields `true`. -/
def RunQueue.update_current (rq : RunQueue) (flags : UpdateFlags) :
    Bool × RunQueue :=
  match flags with
  | UpdateFlags.Tick =>
    match rq.current with
    | none => (false, rq)
    | some cur =>
      let p := cur.tick
      (p.1 || (!p.2.is_real_time && !rq.real_time_entities.isEmpty),
        { rq with current := some p.2 })
  | _ => (true, rq)

/-- `LocalRunQueue::pick_next_current` for `PreemptRunQueue`: pop the front
of the real-time FIFO if non-empty, else the front of the normal FIFO; on
failure (`?`) return `none` with the queue untouched; otherwise install the
popped entity as current and push the previous current, if any, to the tail
of its own class's FIFO.  Returns the new current's runnable. -/
def RunQueue.pick_next_current (rq : RunQueue) : Option Runnable × RunQueue :=
  let popped : Option (Entity × RunQueue) :=
    if !rq.real_time_entities.isEmpty then
      match rq.real_time_entities with
      | [] => none
      | e :: rest => some (e, { rq with real_time_entities := rest })
    else
      match rq.normal_entities with
      | [] => none
      | e :: rest => some (e, { rq with normal_entities := rest })
  match popped with
  | none => (none, rq)
  | some (next_entity, rq1) =>
    let rq2 : RunQueue :=
      match rq1.current with
      | none => { rq1 with current := some next_entity }
      | some prev =>
        if prev.is_real_time then
          { rq1 with
            current := some next_entity
            real_time_entities := rq1.real_time_entities ++ [prev] }
        else
          { rq1 with
            current := some next_entity
            normal_entities := rq1.normal_entities ++ [prev] }
    (some next_entity.runnable, rq2)

/-- `LocalRunQueue::dequeue_current`, run-queue part: `current.take()`,
returning the taken entity's runnable.  (The Affinity Cell clearing
`runnable.cpu().set_to_none()` happens at the scheduler level, where the
cells live; see `SchedState.dequeue_current`.) -/
def RunQueue.dequeue_current (rq : RunQueue) : Option Runnable × RunQueue :=
  match rq.current with
  | none => (none, rq)
  | some e => (some e.runnable, { rq with current := none })

/-- List update at an index (`self.rq[i]` mutation); out-of-range leaves the
list unchanged, matching that the source only ever indexes valid cpu ids. -/
def setAt {α : Type} : List α → Nat → α → List α
  | [], _, _ => []
  | _ :: xs, 0, a => a :: xs
  | x :: xs, n + 1, a => x :: setAt xs n a

/-- The whole scheduler: `PreemptScheduler` (one run queue per cpu) together
with every runnable unit's Affinity Cell.

Modelled from the spec: the Affinity Cell (`AtomicCpuId`, declared outside
the excerpted sources) holds `Option ProcessorId`; `set_if_is_none`
atomically sets it to a given cpu only when it is currently unassigned,
failing with the existing assignment otherwise, and `set_to_none` clears
it.  Here the cells are a map from runnable units to `Option Nat`. -/
structure SchedState where
  cells : Runnable → Option Nat
  rq : List RunQueue

/-- `PreemptScheduler::new(nr_cpus)` with all Affinity Cells unassigned. -/
def SchedState.init (nr_cpus : Nat) : SchedState :=
  ⟨fun _ => none, List.replicate nr_cpus RunQueue.new⟩

/-- Write one runnable's Affinity Cell. -/
def SchedState.setCell (s : SchedState) (r : Runnable) (v : Option Nat) :
    SchedState :=
  { s with cells := fun x => if x = r then v else s.cells x }

/-- `PreemptScheduler::select_cpu`: always 0 (the source's placeholder). -/
def select_cpu : Nat := 0

/-- First half of `Scheduler::enqueue`, before the run-queue lock is taken:
pick a candidate cpu and try `runnable.cpu().set_if_is_none(cpu_id)`.
On failure the enqueue re-targets the cpu the cell already holds and
remembers `still_in_rq`.  Returns `(still_in_rq, target_cpu, state)`. -/
def SchedState.enqueuePhase1 (s : SchedState) (r : Runnable) :
    Bool × Nat × SchedState :=
  let cpu_id := select_cpu
  match s.cells r with
  | none => (false, cpu_id, s.setCell r (some cpu_id))
  | some task_cpu_id => (true, task_cpu_id, s)

/-- Append an entity to the FIFO of its class (the `if entity.is_real_time`
push in `Scheduler::enqueue`). -/
def RunQueue.pushEntity (rq : RunQueue) (entity : Entity) : RunQueue :=
  if entity.is_real_time then
    { rq with real_time_entities := rq.real_time_entities ++ [entity] }
  else
    { rq with normal_entities := rq.normal_entities ++ [entity] }

/-- Second half of `Scheduler::enqueue`, under the `rq[target_cpu]` lock:
when `still_in_rq`, re-run `set_if_is_none(target_cpu)` and return `none`
on failure; otherwise wrap the runnable in a fresh entity and push it to
the real-time or normal FIFO of `rq[target_cpu]`. -/
def SchedState.enqueuePhase2 (s : SchedState) (r : Runnable)
    (still_in_rq : Bool) (target_cpu : Nat) : Option Nat × SchedState :=
  let proceed : Option SchedState :=
    if still_in_rq then
      match s.cells r with
      | none => some (s.setCell r (some target_cpu))
      | some _ => none
    else
      some s
  match proceed with
  | none => (none, s)
  | some s1 =>
    match s1.rq.get? target_cpu with
    | none => (some target_cpu, s1)
    | some rqt =>
      (some target_cpu,
        { s1 with rq := setAt s1.rq target_cpu (rqt.pushEntity (Entity.new r)) })

/-- `Scheduler::enqueue` run as one atomic step (no interference between
the candidate claim and the lock acquisition). -/
def SchedState.enqueue (s : SchedState) (r : Runnable) :
    Option Nat × SchedState :=
  let p := s.enqueuePhase1 r
  p.2.2.enqueuePhase2 r p.1 p.2.1

/-- `pick_next_current` on cpu `i`'s run queue, as a scheduler step. -/
def SchedState.pick_next_current (s : SchedState) (i : Nat) :
    Option Runnable × SchedState :=
  match s.rq.get? i with
  | none => (none, s)
  | some rqi =>
    let p := rqi.pick_next_current
    (p.1, { s with rq := setAt s.rq i p.2 })

/-- `dequeue_current` on cpu `i`: take the current entity, clear its
runnable's Affinity Cell (`set_to_none`), return the runnable. -/
def SchedState.dequeue_current (s : SchedState) (i : Nat) :
    Option Runnable × SchedState :=
  match s.rq.get? i with
  | none => (none, s)
  | some rqi =>
    let p := rqi.dequeue_current
    match p.1 with
    | none => (none, { s with rq := setAt s.rq i p.2 })
    | some r => (some r, ({ s with rq := setAt s.rq i p.2 }).setCell r none)

/-- One observable scheduler operation (the claims quantify over sequences
of these). -/
inductive Op where
  | enq (r : Runnable)
  | pick (i : Nat)
  | deq (i : Nat)

/-- Apply one operation, discarding its return value. -/
def SchedState.step (s : SchedState) : Op → SchedState
  | Op.enq r => (s.enqueue r).2
  | Op.pick i => (s.pick_next_current i).2
  | Op.deq i => (s.dequeue_current i).2

/-- Run a sequence of operations from a state. -/
def SchedState.run (s : SchedState) (ops : List Op) : SchedState :=
  ops.foldl SchedState.step s

/-- How many positions of one run queue hold the runnable `r`: its current
slot plus the entries of both FIFOs. -/
def RunQueue.count (rq : RunQueue) (r : Runnable) : Nat :=
  (match rq.current with
   | some e => if e.runnable = r then 1 else 0
   | none => 0)
  + rq.real_time_entities.countP (fun e => decide (e.runnable = r))
  + rq.normal_entities.countP (fun e => decide (e.runnable = r))

/-- How many positions of the whole scheduler hold the runnable `r`. -/
def SchedState.count (s : SchedState) (r : Runnable) : Nat :=
  (s.rq.map (fun rq => rq.count r)).sum

/-- Iterate `elapse`, keeping only the state. -/
def TimeSlice.iter (t : TimeSlice) : Nat → TimeSlice
  | 0 => t
  | k + 1 => (t.iter k).elapse.2

lemma TimeSlice.iter_elapsed (k : Nat) :
    (TimeSlice.new.iter k).elapsed_ticks = k % 100 := by
  induction k with
  | zero => rfl
  | succ k ih =>
    simp only [TimeSlice.iter, TimeSlice.elapse, DEFAULT_TIME_SLICE, ih]
    omega

/-- C5: `elapse` on a counter `c < 100` sets the counter to `(c+1) % 100` and
returns `true` iff the new value is 0; iterating from the fresh counter 0,
the k-th tick (1 ≤ k ≤ 100) reports exhaustion exactly when k = 100. -/
theorem timeslice_elapse_spec (c : Nat) (h : c < 100) :
    (TimeSlice.elapse ⟨c⟩).2 = ⟨(c + 1) % 100⟩ ∧
    ((TimeSlice.elapse ⟨c⟩).1 = true ↔ (c + 1) % 100 = 0) ∧
    (∀ k, 1 ≤ k → k ≤ 100 →
      ((TimeSlice.new.iter (k - 1)).elapse.1 = true ↔ k = 100)) := by
  refine ⟨rfl, ?_, ?_⟩
  · simp [TimeSlice.elapse, DEFAULT_TIME_SLICE]
  · intro k hk1 hk2
    simp only [TimeSlice.elapse, DEFAULT_TIME_SLICE, TimeSlice.iter_elapsed,
      beq_iff_eq]
    omega

theorem timeslice_elapse_spec_witness :
    (99 : Nat) < 100 ∧ (TimeSlice.elapse ⟨99⟩).1 = true :=
  ⟨by decide, ((timeslice_elapse_spec 99 (by decide)).2.1).mpr (by decide)⟩

/-- C4: `update_current` with the tick flag returns `false` when idle;
with a current entity it returns `true` iff the tick expired the quantum or
the entity is not real-time and the real-time FIFO is non-empty; with any
non-tick flag it returns `true` unconditionally. -/
theorem update_current_spec (rq : RunQueue) :
    (rq.current = none → (rq.update_current UpdateFlags.Tick).1 = false) ∧
    (∀ cur, rq.current = some cur →
      ((rq.update_current UpdateFlags.Tick).1 = true ↔
        (cur.tick.1 = true ∨
          (cur.is_real_time = false ∧ rq.real_time_entities ≠ [])))) ∧
    (∀ flags, flags ≠ UpdateFlags.Tick → (rq.update_current flags).1 = true) := by
  refine ⟨?_, ?_, ?_⟩
  · intro h
    simp [RunQueue.update_current, h]
  · intro cur h
    simp only [RunQueue.update_current, h, Entity.tick, Entity.is_real_time,
      Bool.or_eq_true, Bool.and_eq_true, Bool.not_eq_true',
      List.isEmpty_eq_false, Bool.not_eq_true]
  · intro flags hf
    cases flags with
    | Tick => exact absurd rfl hf
    | Yield => rfl
    | Wait => rfl

theorem update_current_spec_witness :
    RunQueue.new.current = none ∧
    (RunQueue.new.update_current UpdateFlags.Tick).1 = false :=
  ⟨rfl, (update_current_spec RunQueue.new).1 rfl⟩

/-- C10: on a tick with a current entity, that entity's counter advances by
exactly one (mod 100) while its runnable identity and both FIFOs are left
unchanged — whatever the returned resched decision is. -/
theorem update_current_tick_frame (rq : RunQueue) (cur : Entity)
    (h : rq.current = some cur) :
    (rq.update_current UpdateFlags.Tick).2.current =
      some ⟨cur.runnable,
        ⟨(cur.time_slice.elapsed_ticks + 1) % DEFAULT_TIME_SLICE⟩⟩ ∧
    (rq.update_current UpdateFlags.Tick).2.real_time_entities =
      rq.real_time_entities ∧
    (rq.update_current UpdateFlags.Tick).2.normal_entities =
      rq.normal_entities := by
  simp [RunQueue.update_current, h, Entity.tick, TimeSlice.elapse]

theorem update_current_tick_frame_witness :
    (RunQueue.mk (some ⟨⟨7, 200⟩, ⟨41⟩⟩) [] []).current = some ⟨⟨7, 200⟩, ⟨41⟩⟩ ∧
    ((RunQueue.mk (some ⟨⟨7, 200⟩, ⟨41⟩⟩) [] []).update_current
        UpdateFlags.Tick).2.current = some ⟨⟨7, 200⟩, ⟨42⟩⟩ := by
  refine ⟨rfl, ?_⟩
  have h := update_current_tick_frame
    (RunQueue.mk (some ⟨⟨7, 200⟩, ⟨41⟩⟩) [] []) ⟨⟨7, 200⟩, ⟨41⟩⟩ rfl
  simpa using h.1

lemma pick_idle_eq (rq : RunQueue)
    (h1 : rq.real_time_entities = []) (h2 : rq.normal_entities = []) :
    rq.pick_next_current = (none, rq) := by
  simp [RunQueue.pick_next_current, h1, h2]

/-- C9: `pick_next_current` on a run queue whose two FIFOs are both empty
returns no work and leaves the run queue (current slot included) exactly
unchanged. -/
theorem pick_next_current_idle (rq : RunQueue)
    (h1 : rq.real_time_entities = []) (h2 : rq.normal_entities = []) :
    rq.pick_next_current = (none, rq) :=
  pick_idle_eq rq h1 h2

theorem pick_next_current_idle_witness :
    (RunQueue.mk (some ⟨⟨3, 50⟩, ⟨9⟩⟩) [] []).pick_next_current =
      (none, RunQueue.mk (some ⟨⟨3, 50⟩, ⟨9⟩⟩) [] []) :=
  pick_next_current_idle (RunQueue.mk (some ⟨⟨3, 50⟩, ⟨9⟩⟩) [] []) rfl rfl

lemma get?_setAt_self {α : Type} (l : List α) (i : Nat) (a x : α)
    (h : l.get? i = some x) : (setAt l i a).get? i = some a := by
  induction l generalizing i with
  | nil => simp at h
  | cons y ys ih =>
    cases i with
    | zero => rfl
    | succ n => exact ih n h

lemma get?_setAt_ne {α : Type} (l : List α) (i j : Nat) (a : α)
    (h : j ≠ i) : (setAt l i a).get? j = l.get? j := by
  induction l generalizing i j with
  | nil => rfl
  | cons y ys ih =>
    cases i with
    | zero =>
      cases j with
      | zero => exact absurd rfl h
      | succ m => rfl
    | succ n =>
      cases j with
      | zero => rfl
      | succ m => exact ih n m (by omega)

/-- The entities the previous current contributes to each FIFO tail. -/
def demotedTo (cur : Option Entity) (b : Bool) : List Entity :=
  match cur with
  | some prev => if prev.is_real_time = b then [prev] else []
  | none => []

lemma pick_rt_eq (rq : RunQueue) (e : Entity) (rest : List Entity)
    (h : rq.real_time_entities = e :: rest) :
    rq.pick_next_current =
      (some e.runnable,
        RunQueue.mk (some e) (rest ++ demotedTo rq.current true)
          (rq.normal_entities ++ demotedTo rq.current false)) := by
  cases hc : rq.current with
  | none =>
    simp [RunQueue.pick_next_current, h, hc, demotedTo]
  | some prev =>
    cases hrt : prev.is_real_time <;>
      simp [RunQueue.pick_next_current, h, hc, hrt, demotedTo]

lemma pick_normal_eq (rq : RunQueue) (e : Entity) (rest : List Entity)
    (h1 : rq.real_time_entities = []) (h2 : rq.normal_entities = e :: rest) :
    rq.pick_next_current =
      (some e.runnable,
        RunQueue.mk (some e) (demotedTo rq.current true)
          (rest ++ demotedTo rq.current false)) := by
  cases hc : rq.current with
  | none =>
    simp [RunQueue.pick_next_current, h1, h2, hc, demotedTo]
  | some prev =>
    cases hrt : prev.is_real_time <;>
      simp [RunQueue.pick_next_current, h1, h2, hc, hrt, demotedTo]

lemma enqueuePhase1_none (s : SchedState) (r : Runnable)
    (h : s.cells r = none) :
    s.enqueuePhase1 r = (false, select_cpu, s.setCell r (some select_cpu)) := by
  simp [SchedState.enqueuePhase1, h]

lemma enqueuePhase1_some (s : SchedState) (r : Runnable) (q : Nat)
    (h : s.cells r = some q) :
    s.enqueuePhase1 r = (true, q, s) := by
  simp [SchedState.enqueuePhase1, h]

lemma enqueuePhase2_false (s : SchedState) (r : Runnable) (target : Nat) :
    s.enqueuePhase2 r false target =
      match s.rq.get? target with
      | none => (some target, s)
      | some rqt =>
        (some target,
          { s with rq := setAt s.rq target (rqt.pushEntity (Entity.new r)) }) :=
  rfl

lemma enqueuePhase2_true_some (s : SchedState) (r : Runnable) (target p : Nat)
    (h : s.cells r = some p) :
    s.enqueuePhase2 r true target = (none, s) := by
  simp [SchedState.enqueuePhase2, h]

lemma enqueuePhase2_true_none (s : SchedState) (r : Runnable) (target : Nat)
    (h : s.cells r = none) :
    s.enqueuePhase2 r true target =
      (s.setCell r (some target)).enqueuePhase2 r false target := by
  simp [SchedState.enqueuePhase2, h]

lemma enqueue_cell_some (s : SchedState) (r : Runnable) (q : Nat)
    (h : s.cells r = some q) :
    s.enqueue r = (none, s) := by
  simp only [SchedState.enqueue]
  rw [enqueuePhase1_some s r q h]
  exact enqueuePhase2_true_some s r q q h

lemma enqueue_cell_none (s : SchedState) (r : Runnable)
    (h : s.cells r = none) :
    s.enqueue r =
      (s.setCell r (some select_cpu)).enqueuePhase2 r false select_cpu := by
  simp only [SchedState.enqueue]
  rw [enqueuePhase1_none s r h]

/-- C3: when `pick_next_current` succeeds it pops the real-time front if
that FIFO is non-empty and the normal front otherwise, installs the popped
entity as the new current, appends the previous current (if any) to the
tail of its own class's FIFO, and returns the new current's runnable; in
particular, with both FIFOs non-empty it always selects the real-time
front. -/
theorem pick_next_current_spec (rq : RunQueue) :
    (∀ e rest, rq.real_time_entities = e :: rest →
      rq.pick_next_current =
        (some e.runnable,
          RunQueue.mk (some e) (rest ++ demotedTo rq.current true)
            (rq.normal_entities ++ demotedTo rq.current false))) ∧
    (∀ e rest, rq.real_time_entities = [] → rq.normal_entities = e :: rest →
      rq.pick_next_current =
        (some e.runnable,
          RunQueue.mk (some e) (demotedTo rq.current true)
            (rest ++ demotedTo rq.current false))) :=
  ⟨fun e rest h => pick_rt_eq rq e rest h,
   fun e rest h1 h2 => pick_normal_eq rq e rest h1 h2⟩

theorem pick_next_current_spec_witness :
    (RunQueue.mk (some ⟨⟨9, 200⟩, ⟨5⟩⟩)
        [⟨⟨1, 50⟩, ⟨0⟩⟩] [⟨⟨2, 200⟩, ⟨0⟩⟩]).pick_next_current =
      (some ⟨1, 50⟩,
        RunQueue.mk (some ⟨⟨1, 50⟩, ⟨0⟩⟩) []
          [⟨⟨2, 200⟩, ⟨0⟩⟩, ⟨⟨9, 200⟩, ⟨5⟩⟩]) := by
  have h := (pick_next_current_spec
    (RunQueue.mk (some ⟨⟨9, 200⟩, ⟨5⟩⟩)
      [⟨⟨1, 50⟩, ⟨0⟩⟩] [⟨⟨2, 200⟩, ⟨0⟩⟩])).1 ⟨⟨1, 50⟩, ⟨0⟩⟩ [] rfl
  simpa [demotedTo] using h

/-- C6: an entity demoted by `pick_next_current` keeps its time slice
exactly (the tail of its class's FIFO is the previous current, counter and
all), while every admission through `Scheduler::enqueue` appends a fresh
entity whose counter is 0. -/
theorem time_slice_not_reset (rq : RunQueue) (prev : Entity)
    (h : rq.current = some prev) (u : Runnable) (rq' : RunQueue)
    (hp : rq.pick_next_current = (some u, rq')) :
    ((if prev.is_real_time then rq'.real_time_entities.getLast?
      else rq'.normal_entities.getLast?) = some prev) ∧
    (∀ (s : SchedState) (r : Runnable) (cpu : Nat) (s' : SchedState),
      s.enqueue r = (some cpu, s') →
      ∀ rqt', s'.rq.get? cpu = some rqt' →
        ((if r.is_real_time then rqt'.real_time_entities.getLast?
          else rqt'.normal_entities.getLast?) = some (Entity.new r) ∧
          (Entity.new r).time_slice.elapsed_ticks = 0)) := by
  constructor
  · cases hrt : rq.real_time_entities with
    | cons e rest =>
      rw [pick_rt_eq rq e rest hrt, Prod.mk.injEq] at hp
      rw [← hp.2, h]
      cases hb : prev.is_real_time <;>
        simp [demotedTo, hb, List.getLast?_concat]
    | nil =>
      cases hn : rq.normal_entities with
      | nil =>
        rw [pick_idle_eq rq hrt hn, Prod.mk.injEq] at hp
        cases hp.1
      | cons e rest =>
        rw [pick_normal_eq rq e rest hrt hn, Prod.mk.injEq] at hp
        rw [← hp.2, h]
        cases hb : prev.is_real_time <;>
          simp [demotedTo, hb, List.getLast?_concat]
  · intro s r cpu s' he rqt' hg
    cases hcell : s.cells r with
    | some q =>
      rw [enqueue_cell_some s r q hcell, Prod.mk.injEq] at he
      cases he.1
    | none =>
      rw [enqueue_cell_none s r hcell, enqueuePhase2_false] at he
      cases hrq : (s.setCell r (some select_cpu)).rq.get? select_cpu with
      | none =>
        rw [hrq, Prod.mk.injEq] at he
        obtain ⟨he1, he2⟩ := he
        cases he1
        rw [← he2] at hg
        rw [hg] at hrq
        cases hrq
      | some rqt =>
        rw [hrq, Prod.mk.injEq] at he
        obtain ⟨he1, he2⟩ := he
        cases he1
        rw [← he2] at hg
        have hself := get?_setAt_self
          ((s.setCell r (some select_cpu)).rq) select_cpu
          (rqt.pushEntity (Entity.new r)) rqt hrq
        rw [show (({ s.setCell r (some select_cpu) with
            rq := setAt ((s.setCell r (some select_cpu)).rq) select_cpu
              (rqt.pushEntity (Entity.new r)) } : SchedState).rq) =
          setAt ((s.setCell r (some select_cpu)).rq) select_cpu
            (rqt.pushEntity (Entity.new r)) from rfl, hself] at hg
        cases hg
        have hb' : (Entity.new r).is_real_time = r.is_real_time := rfl
        cases hb : r.is_real_time <;>
          simp [RunQueue.pushEntity, Entity.is_real_time, hb,
            List.getLast?_concat, Entity.new, TimeSlice.new]

theorem time_slice_not_reset_witness :
    ((if (Entity.mk ⟨9, 200⟩ ⟨5⟩).is_real_time then
        (RunQueue.mk (some ⟨⟨1, 50⟩, ⟨0⟩⟩) []
          [⟨⟨2, 200⟩, ⟨0⟩⟩, ⟨⟨9, 200⟩, ⟨5⟩⟩]).real_time_entities.getLast?
      else
        (RunQueue.mk (some ⟨⟨1, 50⟩, ⟨0⟩⟩) []
          [⟨⟨2, 200⟩, ⟨0⟩⟩, ⟨⟨9, 200⟩, ⟨5⟩⟩]).normal_entities.getLast?) =
      some ⟨⟨9, 200⟩, ⟨5⟩⟩) :=
  (time_slice_not_reset
    (RunQueue.mk (some ⟨⟨9, 200⟩, ⟨5⟩⟩) [⟨⟨1, 50⟩, ⟨0⟩⟩] [⟨⟨2, 200⟩, ⟨0⟩⟩])
    ⟨⟨9, 200⟩, ⟨5⟩⟩ rfl ⟨1, 50⟩
    (RunQueue.mk (some ⟨⟨1, 50⟩, ⟨0⟩⟩) [] [⟨⟨2, 200⟩, ⟨0⟩⟩, ⟨⟨9, 200⟩, ⟨5⟩⟩])
    (by rfl)).1

/-- C8: `dequeue_current` on a run queue with a current entity removes it,
returns its runnable, clears that runnable's Affinity Cell (and no other),
and leaves both FIFOs of that queue and every other run queue untouched. -/
theorem dequeue_current_spec (s : SchedState) (i : Nat) (rqi : RunQueue)
    (e : Entity) (h1 : s.rq.get? i = some rqi) (h2 : rqi.current = some e) :
    (s.dequeue_current i).1 = some e.runnable ∧
    (s.dequeue_current i).2.cells e.runnable = none ∧
    (∀ x, x ≠ e.runnable → (s.dequeue_current i).2.cells x = s.cells x) ∧
    (s.dequeue_current i).2.rq.get? i = some { rqi with current := none } ∧
    (∀ j, j ≠ i → (s.dequeue_current i).2.rq.get? j = s.rq.get? j) := by
  simp only [SchedState.dequeue_current, h1, RunQueue.dequeue_current, h2]
  refine ⟨trivial, ?_, ?_, ?_, ?_⟩
  · simp [SchedState.setCell]
  · intro x hx
    simp [SchedState.setCell, hx]
  · simp only [SchedState.setCell]
    exact get?_setAt_self _ i _ _ h1
  · intro j hj
    simp only [SchedState.setCell]
    exact get?_setAt_ne _ i j _ hj

theorem dequeue_current_spec_witness :
    ((SchedState.mk (fun x => if x = ⟨4, 200⟩ then some 0 else none)
        [RunQueue.mk (some ⟨⟨4, 200⟩, ⟨17⟩⟩) [] []]).dequeue_current 0).1 =
      some ⟨4, 200⟩ ∧
    ((SchedState.mk (fun x => if x = ⟨4, 200⟩ then some 0 else none)
        [RunQueue.mk (some ⟨⟨4, 200⟩, ⟨17⟩⟩) [] []]).dequeue_current
          0).2.cells ⟨4, 200⟩ = none := by
  have h := dequeue_current_spec
    (SchedState.mk (fun x => if x = ⟨4, 200⟩ then some 0 else none)
      [RunQueue.mk (some ⟨⟨4, 200⟩, ⟨17⟩⟩) [] []]) 0
    (RunQueue.mk (some ⟨⟨4, 200⟩, ⟨17⟩⟩) [] []) ⟨⟨4, 200⟩, ⟨17⟩⟩ rfl rfl
  exact ⟨h.1, h.2.1⟩

/-- C2 as stated is false: an enqueue that re-targeted cpu `q` because the
unit's Affinity Cell held `some q` returns `none` even when the re-validated
cell still holds exactly `some q` (the expected target), because the
re-validation is `set_if_is_none`, which fails on any assigned cell. -/
theorem enqueue_revalidation_counterexample :
    ((SchedState.init 1).setCell ⟨0, 200⟩ (some 0)).cells ⟨0, 200⟩ = some 0 ∧
    (((SchedState.init 1).setCell ⟨0, 200⟩ (some 0)).enqueuePhase2 ⟨0, 200⟩
        true 0).1 = none ∧
    (((SchedState.init 1).setCell ⟨0, 200⟩ (some 0)).enqueue ⟨0, 200⟩).1 =
      none :=
  ⟨rfl, rfl, rfl⟩

/-- C2 (amended): a re-targeting enqueue (initial compare-and-set found
`some q`) proceeds exactly when the re-validated cell has become
unassigned, in which case it claims the cell for `q`; it returns `none`
if and only if the re-validated cell is still assigned — to any processor,
`q` itself included — and in that case the whole state (run queues and
cells) is left unmodified. -/
theorem enqueue_revalidation_amended (s : SchedState) (r : Runnable) (q : Nat)
    (h : s.cells r = some q) :
    s.enqueuePhase1 r = (true, q, s) ∧
    ∀ t : SchedState,
      ((t.enqueuePhase2 r true q).1 = none ↔ t.cells r ≠ none) ∧
      (t.cells r = none →
        ((t.enqueuePhase2 r true q).1 = some q ∧
          (t.enqueuePhase2 r true q).2.cells r = some q)) ∧
      ((t.enqueuePhase2 r true q).1 = none → (t.enqueuePhase2 r true q).2 = t) := by
  refine ⟨enqueuePhase1_some s r q h, ?_⟩
  intro t
  cases hc : t.cells r with
  | some p =>
    rw [enqueuePhase2_true_some t r q p hc]
    exact ⟨by simp, fun hn => absurd hn (by simp), fun _ => rfl⟩
  | none =>
    rw [enqueuePhase2_true_none t r q hc, enqueuePhase2_false]
    cases hrq : (t.setCell r (some q)).rq.get? q with
    | none =>
      exact ⟨by simp, fun _ => ⟨rfl, by simp [SchedState.setCell]⟩,
        fun hn => by simp at hn⟩
    | some rqt =>
      exact ⟨by simp, fun _ => ⟨rfl, by simp [SchedState.setCell]⟩,
        fun hn => by simp at hn⟩

theorem enqueue_revalidation_amended_witness :
    ((SchedState.init 2).setCell ⟨1, 50⟩ (some 1)).enqueuePhase1 ⟨1, 50⟩ =
      (true, 1, (SchedState.init 2).setCell ⟨1, 50⟩ (some 1)) :=
  (enqueue_revalidation_amended
    ((SchedState.init 2).setCell ⟨1, 50⟩ (some 1)) ⟨1, 50⟩ 1 rfl).1

/-- Iterate `pick_next_current`, keeping only the run-queue state. -/
def pickIter (rq : RunQueue) : Nat → RunQueue
  | 0 => rq
  | k + 1 => ((pickIter rq k).pick_next_current).2

/-- The run queue holding the entities `L` in one class's FIFO and nothing
else (the state produced by enqueuing `L` on an empty processor). -/
def rqInit (b : Bool) (L : List Entity) : RunQueue :=
  if b then ⟨none, L, []⟩ else ⟨none, [], L⟩

/-- A run queue with current `c` and the single class-`b` FIFO `f`. -/
def rqState (b : Bool) (c : Entity) (f : List Entity) : RunQueue :=
  if b then ⟨some c, f, []⟩ else ⟨some c, [], f⟩

/-- Enqueue a list of runnables in order. -/
def SchedState.enqueueAll (s : SchedState) (rs : List Runnable) : SchedState :=
  rs.foldl (fun s r => (s.enqueue r).2) s

lemma pick_rqState_nil (b : Bool) (c : Entity) :
    (rqState b c []).pick_next_current = (none, rqState b c []) := by
  cases b <;> exact pick_idle_eq _ rfl rfl

lemma pick_rqState_cons (b : Bool) (c e : Entity) (rest : List Entity)
    (hc : c.is_real_time = b) :
    (rqState b c (e :: rest)).pick_next_current =
      (some e.runnable, rqState b e (rest ++ [c])) := by
  cases b with
  | true =>
    rw [pick_rt_eq (rqState true c (e :: rest)) e rest rfl]
    simp [rqState, demotedTo, hc]
  | false =>
    rw [pick_normal_eq (rqState false c (e :: rest)) e rest rfl rfl]
    simp [rqState, demotedTo, hc]

lemma rotate_one_eq {α : Type} (l : List α) (a : α) :
    (a :: l).rotate 1 = l ++ [a] := by
  simpa using List.rotate_cons_succ l a 0

/-- After `k + 1` picks from a single-class queue, the current and the FIFO
together are the `k + 1`-fold rotation of the enqueued list. -/
lemma pickIter_rotate (b : Bool) (L : List Entity)
    (hL : ∀ e ∈ L, e.is_real_time = b) (hne : L ≠ []) :
    ∀ k, ∃ c f, pickIter (rqInit b L) (k + 1) = rqState b c f ∧
      f ++ [c] = L.rotate (k + 1) := by
  intro k
  induction k with
  | zero =>
    cases L with
    | nil => exact absurd rfl hne
    | cons e rest =>
      refine ⟨e, rest, ?_, ?_⟩
      · show ((rqInit b (e :: rest)).pick_next_current).2 = rqState b e rest
        cases b with
        | true =>
          rw [pick_rt_eq (rqInit true (e :: rest)) e rest rfl]
          simp [rqInit, rqState, demotedTo]
        | false =>
          rw [pick_normal_eq (rqInit false (e :: rest)) e rest rfl rfl]
          simp [rqInit, rqState, demotedTo]
      · rw [rotate_one_eq]
  | succ k ih =>
    obtain ⟨c, f, hst, hrot⟩ := ih
    have hcb : c.is_real_time = b := by
      have hmem : c ∈ f ++ [c] := by simp
      rw [hrot] at hmem
      exact hL c (List.mem_rotate.mp hmem)
    cases f with
    | nil =>
      refine ⟨c, [], ?_, ?_⟩
      · show ((pickIter (rqInit b L) (k + 1)).pick_next_current).2 =
          rqState b c []
        rw [hst, pick_rqState_nil b c]
      · have h1 : L.rotate (k + 1 + 1) = (L.rotate (k + 1)).rotate 1 := by
          rw [List.rotate_rotate]
        rw [h1, ← hrot]
        simp [List.rotate_singleton]
    | cons e rest =>
      refine ⟨e, rest ++ [c], ?_, ?_⟩
      · show ((pickIter (rqInit b L) (k + 1)).pick_next_current).2 =
          rqState b e (rest ++ [c])
        rw [hst, pick_rqState_cons b c e rest hcb]
      · have h1 : L.rotate (k + 1 + 1) = (L.rotate (k + 1)).rotate 1 := by
          rw [List.rotate_rotate]
        rw [h1, ← hrot, show (e :: rest) ++ [c] = e :: (rest ++ [c]) from rfl,
          rotate_one_eq]

lemma rotate_getLast? {α : Type} (L : List α) (k : Nat) (hne : L ≠ [])
    (hk : 1 ≤ k) :
    (L.rotate k).getLast? = L.get? ((k - 1) % L.length) := by
  have hN : 0 < L.length := List.length_pos.mpr hne
  rw [List.getLast?_eq_getElem?, List.length_rotate, ← List.get?_eq_getElem?,
    List.get?_rotate (by omega : L.length - 1 < L.length)]
  congr 1
  rw [show L.length - 1 + k = (k - 1) + L.length by omega, Nat.add_mod_right]

lemma enqueueAll_single_cpu (rs : List Runnable)
    (cells : Runnable → Option Nat) (A : RunQueue)
    (hc : ∀ r ∈ rs, cells r = none) (hnd : rs.Nodup) :
    ∃ cells', SchedState.enqueueAll ⟨cells, [A]⟩ rs =
      ⟨cells', [rs.foldl (fun q r => q.pushEntity (Entity.new r)) A]⟩ := by
  induction rs generalizing cells A with
  | nil => exact ⟨cells, rfl⟩
  | cons r0 rest ih =>
    have h0 : cells r0 = none := hc r0 (by simp)
    have hnd' := List.nodup_cons.mp hnd
    have hstep : ((SchedState.mk cells [A]).enqueue r0).2 =
        ⟨fun x => if x = r0 then some select_cpu else cells x,
          [A.pushEntity (Entity.new r0)]⟩ := by
      rw [enqueue_cell_none _ _ h0, enqueuePhase2_false]
      rfl
    have hc' : ∀ r ∈ rest,
        (fun x => if x = r0 then some select_cpu else cells x) r = none := by
      intro r hr
      have hne : r ≠ r0 := fun h => hnd'.1 (h ▸ hr)
      simp only [if_neg hne]
      exact hc r (by simp [hr])
    obtain ⟨cells', hq⟩ := ih _ (A.pushEntity (Entity.new r0)) hc' hnd'.2
    refine ⟨cells', ?_⟩
    show SchedState.enqueueAll
      ((SchedState.mk cells [A]).enqueue r0).2 rest = _
    rw [hstep, hq]
    rfl

lemma foldl_push_class (b : Bool) (rs : List Runnable)
    (hcls : ∀ r ∈ rs, r.is_real_time = b) (A : RunQueue) :
    rs.foldl (fun q r => q.pushEntity (Entity.new r)) A =
      (if b then
        { A with real_time_entities :=
            A.real_time_entities ++ rs.map Entity.new }
       else
        { A with normal_entities :=
            A.normal_entities ++ rs.map Entity.new }) := by
  induction rs generalizing A with
  | nil => cases b <;> simp
  | cons r0 rest ih =>
    have h0 : (Entity.new r0).is_real_time = b := hcls r0 (by simp)
    simp only [List.foldl_cons, List.map_cons]
    rw [ih (fun r hr => hcls r (by simp [hr]))]
    cases b <;> simp [RunQueue.pushEntity, h0]

/-- C7: N same-class entities enqueued in order on one processor (an empty
scheduler, no other class present, no further enqueues) land in that class's
FIFO in order; after the k-th `pick_next_current` (k ≥ 1) the current slot
holds the entity at index `(k-1) mod N`, and (for N ≥ 2, or k = 1) the k-th
call itself returns that entity's runnable: the round-robin order
e1, e2, ..., eN, e1, ... -/
theorem fifo_round_robin (rs : List Runnable) (b : Bool)
    (hnd : rs.Nodup) (hcls : ∀ r ∈ rs, r.is_real_time = b) (hne : rs ≠ [])
    (k : Nat) (hk : 1 ≤ k) :
    (∃ cells', (SchedState.init 1).enqueueAll rs =
        ⟨cells', [rqInit b (rs.map Entity.new)]⟩) ∧
    (pickIter (rqInit b (rs.map Entity.new)) k).current =
      (rs.map Entity.new).get? ((k - 1) % rs.length) ∧
    (2 ≤ rs.length ∨ k = 1 →
      ((pickIter (rqInit b (rs.map Entity.new)) (k - 1)).pick_next_current).1 =
        rs.get? ((k - 1) % rs.length)) := by
  have hL : ∀ e ∈ rs.map Entity.new, e.is_real_time = b := by
    intro x hx
    obtain ⟨r, hrmem, rfl⟩ := List.mem_map.mp hx
    exact hcls r hrmem
  have hLne : rs.map Entity.new ≠ [] := by
    simpa using hne
  have hN : 0 < rs.length := List.length_pos.mpr hne
  refine ⟨?_, ?_, ?_⟩
  · obtain ⟨cells', hq⟩ := enqueueAll_single_cpu rs (fun _ => none)
      RunQueue.new (fun _ _ => rfl) hnd
    refine ⟨cells', ?_⟩
    show SchedState.enqueueAll ⟨fun _ => none, [RunQueue.new]⟩ rs = _
    rw [hq, foldl_push_class b rs hcls RunQueue.new]
    cases b <;> simp [RunQueue.new, rqInit]
  · obtain ⟨c, f, hst, hrot⟩ := pickIter_rotate b (rs.map Entity.new) hL
      hLne (k - 1)
    rw [show k - 1 + 1 = k from by omega] at hst hrot
    have hcur : (pickIter (rqInit b (rs.map Entity.new)) k).current = some c := by
      rw [hst]
      cases b <;> rfl
    have hlast : ((rs.map Entity.new).rotate k).getLast? = some c := by
      rw [← hrot]
      exact List.getLast?_concat f
    rw [rotate_getLast? (rs.map Entity.new) k hLne hk] at hlast
    rw [hcur, ← hlast, List.length_map]
  · intro hcase
    by_cases hk1 : k = 1
    · subst hk1
      cases hr : rs with
      | nil => exact absurd hr hne
      | cons r0 rest' =>
        show ((rqInit b ((r0 :: rest').map Entity.new)).pick_next_current).1 =
          (r0 :: rest').get? ((1 - 1) % (r0 :: rest').length)
        cases b with
        | true =>
          rw [pick_rt_eq (rqInit true ((r0 :: rest').map Entity.new))
            (Entity.new r0) (rest'.map Entity.new) (by simp [rqInit])]
          simp [Entity.new]
        | false =>
          rw [pick_normal_eq (rqInit false ((r0 :: rest').map Entity.new))
            (Entity.new r0) (rest'.map Entity.new) rfl (by simp [rqInit])]
          simp [Entity.new]
    · have hN2 : 2 ≤ rs.length := by
        cases hcase with
        | inl h => exact h
        | inr h => exact absurd h hk1
      have hk2 : 2 ≤ k := by omega
      obtain ⟨c, f, hst, hrot⟩ := pickIter_rotate b (rs.map Entity.new) hL
        hLne (k - 2)
      rw [show k - 2 + 1 = k - 1 from by omega] at hst hrot
      have hcb : c.is_real_time = b := by
        have hmem : c ∈ f ++ [c] := by simp
        rw [hrot] at hmem
        exact hL c (List.mem_rotate.mp hmem)
      have hflen : f.length + 1 = rs.length := by
        have hlen := congrArg List.length hrot
        simpa [List.length_rotate, List.length_map] using hlen
      cases hf : f with
      | nil =>
        rw [hf] at hflen
        simp at hflen
        omega
      | cons e rest =>
        subst hf
        rw [hst, pick_rqState_cons b c e rest hcb]
        have hidx : ((rs.map Entity.new).rotate (k - 1)).get? 0 = some e := by
          rw [← hrot]
          rfl
        rw [List.get?_rotate
          (by rw [List.length_map]; omega :
            0 < (rs.map Entity.new).length)] at hidx
        rw [Nat.zero_add, List.get?_map, List.length_map] at hidx
        obtain ⟨r, hr, he⟩ := Option.map_eq_some'.mp hidx
        rw [hr, ← he]
        rfl

theorem fifo_round_robin_witness :
    (pickIter (rqInit false
        ([⟨1, 200⟩, ⟨2, 200⟩].map Entity.new)) 3).current =
      ([(⟨1, 200⟩ : Runnable), ⟨2, 200⟩].map Entity.new).get? ((3 - 1) % 2) :=
  (fifo_round_robin [⟨1, 200⟩, ⟨2, 200⟩] false (by decide) (by decide)
    (by decide) 3 (by decide)).2.1

lemma sum_count_setAt (l : List RunQueue) :
    ∀ (i : Nat) (a x : RunQueue) (r : Runnable), l.get? i = some x →
      ((setAt l i a).map (fun q => q.count r)).sum + x.count r =
        (l.map (fun q => q.count r)).sum + a.count r := by
  induction l with
  | nil =>
    intro i a x r h
    simp at h
  | cons y ys ih =>
    intro i a x r h
    cases i with
    | zero =>
      simp only [List.get?_cons_zero] at h
      cases h
      show ((a :: ys).map _).sum + y.count r = ((y :: ys).map _).sum + a.count r
      simp only [List.map_cons, List.sum_cons]
      omega
    | succ n =>
      simp only [List.get?_cons_succ] at h
      have hih := ih n a x r h
      show ((y :: setAt ys n a).map _).sum + x.count r = _
      simp only [List.map_cons, List.sum_cons]
      omega

lemma count_le_sum (l : List RunQueue) :
    ∀ (i : Nat) (x : RunQueue) (r : Runnable), l.get? i = some x →
      x.count r ≤ (l.map (fun q => q.count r)).sum := by
  induction l with
  | nil =>
    intro i x r h
    simp at h
  | cons y ys ih =>
    intro i x r h
    cases i with
    | zero =>
      simp only [List.get?_cons_zero] at h
      cases h
      simp only [List.map_cons, List.sum_cons]
      omega
    | succ n =>
      simp only [List.get?_cons_succ] at h
      have hih := ih n x r h
      simp only [List.map_cons, List.sum_cons]
      omega

lemma count_pick (rq : RunQueue) (x : Runnable) :
    ((rq.pick_next_current).2).count x = rq.count x := by
  cases hrt : rq.real_time_entities with
  | cons e rest =>
    rw [pick_rt_eq rq e rest hrt]
    cases hc : rq.current with
    | none =>
      simp only [RunQueue.count, demotedTo, hrt, hc, List.countP_append,
        List.countP_cons, List.countP_nil, List.append_nil, decide_eq_true_eq]
      split_ifs <;> omega
    | some prev =>
      cases hb : prev.is_real_time <;>
        · simp [RunQueue.count, demotedTo, hrt, hc, hb, List.countP_append,
            List.countP_cons]
          split_ifs <;> omega
  | nil =>
    cases hn : rq.normal_entities with
    | nil =>
      rw [pick_idle_eq rq hrt hn]
    | cons e rest =>
      rw [pick_normal_eq rq e rest hrt hn]
      cases hc : rq.current with
      | none =>
        simp only [RunQueue.count, demotedTo, hrt, hn, hc, List.countP_append,
          List.countP_cons, List.countP_nil, List.append_nil, decide_eq_true_eq]
        split_ifs <;> omega
      | some prev =>
        cases hb : prev.is_real_time <;>
          · simp [RunQueue.count, demotedTo, hrt, hn, hc, hb, List.countP_append,
              List.countP_cons]
            split_ifs <;> omega

lemma count_pushEntity (rq : RunQueue) (en : Entity) (x : Runnable) :
    (rq.pushEntity en).count x =
      rq.count x + (if en.runnable = x then 1 else 0) := by
  cases hb : en.is_real_time <;>
    · simp [RunQueue.pushEntity, hb, RunQueue.count, List.countP_append,
        List.countP_cons]
      split_ifs <;> omega

lemma count_take_current (rq : RunQueue) (e : Entity) (h : rq.current = some e)
    (x : Runnable) :
    ({ rq with current := none } : RunQueue).count x +
      (if e.runnable = x then 1 else 0) = rq.count x := by
  simp only [RunQueue.count, h]
  split_ifs <;> omega

/-- The at-most-once invariant together with the cell linkage that makes
it inductive: an unassigned Affinity Cell means the unit is nowhere. -/
def Inv (s : SchedState) : Prop :=
  ∀ x, s.count x ≤ 1 ∧ (s.cells x = none → s.count x = 0)

lemma inv_init (n : Nat) : Inv (SchedState.init n) := by
  intro x
  have h0 : (SchedState.init n).count x = 0 := by
    show ((List.replicate n RunQueue.new).map (fun q => q.count x)).sum = 0
    induction n with
    | zero => rfl
    | succ m ih =>
      simp only [List.replicate, List.map_cons, List.sum_cons]
      have hnew : RunQueue.new.count x = 0 := rfl
      omega
  exact ⟨by omega, fun _ => h0⟩

lemma inv_enq (s : SchedState) (hs : Inv s) (r : Runnable) :
    Inv ((s.enqueue r).2) := by
  cases hcell : s.cells r with
  | some q =>
    rw [enqueue_cell_some s r q hcell]
    exact hs
  | none =>
    rw [enqueue_cell_none s r hcell, enqueuePhase2_false]
    cases hrq : (s.setCell r (some select_cpu)).rq.get? select_cpu with
    | none =>
      intro x
      refine ⟨(hs x).1, ?_⟩
      intro hc
      by_cases hxr : x = r
      · subst hxr
        simp [SchedState.setCell] at hc
      · have hxc : s.cells x = none := by
          simpa [SchedState.setCell, hxr] using hc
        exact (hs x).2 hxc
    | some rqt =>
      intro x
      have h1 := sum_count_setAt s.rq select_cpu
        (rqt.pushEntity (Entity.new r)) rqt x hrq
      have h2 := count_pushEntity rqt (Entity.new r) x
      rw [show (Entity.new r).runnable = r from rfl] at h2
      have hcount : s.count x = (s.rq.map (fun q => q.count x)).sum := rfl
      have hle := (hs x).1
      constructor
      · show ((setAt s.rq select_cpu
          (rqt.pushEntity (Entity.new r))).map (fun q => q.count x)).sum ≤ 1
        by_cases hxr : r = x
        · subst hxr
          simp at h2
          have hz := (hs r).2 hcell
          omega
        · simp [hxr] at h2
          omega
      · intro hc
        by_cases hxr : x = r
        · subst hxr
          simp [SchedState.setCell] at hc
        · have hxc : s.cells x = none := by
            simpa [SchedState.setCell, hxr] using hc
          have hz := (hs x).2 hxc
          have hrx : ¬(r = x) := fun h => hxr h.symm
          simp [hrx] at h2
          show ((setAt s.rq select_cpu
            (rqt.pushEntity (Entity.new r))).map (fun q => q.count x)).sum = 0
          omega

lemma inv_pick (s : SchedState) (hs : Inv s) (i : Nat) :
    Inv ((s.pick_next_current i).2) := by
  cases hrq : s.rq.get? i with
  | none =>
    have heq : (s.pick_next_current i).2 = s := by
      simp only [SchedState.pick_next_current, hrq]
    rw [heq]
    exact hs
  | some rqi =>
    have heq : (s.pick_next_current i).2 =
        { s with rq := setAt s.rq i (rqi.pick_next_current).2 } := by
      simp only [SchedState.pick_next_current, hrq]
    rw [heq]
    intro x
    have h1 := sum_count_setAt s.rq i ((rqi.pick_next_current).2) rqi x hrq
    have h2 := count_pick rqi x
    have heq2 : ({ s with rq := setAt s.rq i (rqi.pick_next_current).2 } :
        SchedState).count x = s.count x := by
      show ((setAt s.rq i (rqi.pick_next_current).2).map
        (fun q => q.count x)).sum = (s.rq.map (fun q => q.count x)).sum
      omega
    rw [heq2]
    exact ⟨(hs x).1, (hs x).2⟩

lemma inv_deq (s : SchedState) (hs : Inv s) (i : Nat) :
    Inv ((s.dequeue_current i).2) := by
  cases hrq : s.rq.get? i with
  | none =>
    have heq : (s.dequeue_current i).2 = s := by
      simp only [SchedState.dequeue_current, hrq]
    rw [heq]
    exact hs
  | some rqi =>
    cases hc : rqi.current with
    | none =>
      have heq : (s.dequeue_current i).2 = { s with rq := setAt s.rq i rqi } := by
        simp only [SchedState.dequeue_current, hrq, RunQueue.dequeue_current, hc]
      rw [heq]
      intro x
      have h1 := sum_count_setAt s.rq i rqi rqi x hrq
      have heq2 : ({ s with rq := setAt s.rq i rqi } : SchedState).count x =
          s.count x := by
        show ((setAt s.rq i rqi).map (fun q => q.count x)).sum =
          (s.rq.map (fun q => q.count x)).sum
        omega
      rw [heq2]
      exact ⟨(hs x).1, (hs x).2⟩
    | some e =>
      have heq : (s.dequeue_current i).2 =
          ({ s with rq := setAt s.rq i { rqi with current := none } }).setCell
            e.runnable none := by
        simp only [SchedState.dequeue_current, hrq, RunQueue.dequeue_current, hc]
      rw [heq]
      intro x
      have h1 := sum_count_setAt s.rq i { rqi with current := none } rqi x hrq
      have h2 := count_take_current rqi e hc x
      have h3 := count_le_sum s.rq i rqi x hrq
      have hcount : s.count x = (s.rq.map (fun q => q.count x)).sum := rfl
      have hle := (hs x).1
      constructor
      · show ((setAt s.rq i { rqi with current := none }).map
          (fun q => q.count x)).sum ≤ 1
        by_cases hx : e.runnable = x
        · simp [hx] at h2
          omega
        · simp [hx] at h2
          omega
      · intro hcell
        by_cases hx : e.runnable = x
        · simp [hx] at h2
          show ((setAt s.rq i { rqi with current := none }).map
            (fun q => q.count x)).sum = 0
          omega
        · have hx' : ¬ x = e.runnable := fun h => hx h.symm
          have hxc : s.cells x = none := by
            simpa [SchedState.setCell, hx'] using hcell
          have hz := (hs x).2 hxc
          simp [hx] at h2
          show ((setAt s.rq i { rqi with current := none }).map
            (fun q => q.count x)).sum = 0
          omega

lemma inv_step (s : SchedState) (hs : Inv s) (op : Op) : Inv (s.step op) := by
  cases op with
  | enq r => exact inv_enq s hs r
  | pick i => exact inv_pick s hs i
  | deq i => exact inv_deq s hs i

lemma inv_run (ops : List Op) : ∀ s, Inv s → Inv (s.run ops) := by
  induction ops with
  | nil =>
    intro s hs
    exact hs
  | cons op rest ih =>
    intro s hs
    exact ih _ (inv_step s hs op)

/-- C1: starting from the freshly constructed scheduler, after any sequence
of enqueue / pick_next_current / dequeue_current operations, every runnable
unit occupies at most one position among all current slots and all
real-time and normal FIFO entries of all processors — never two places at
once. -/
theorem no_duplication_or_loss (n : Nat) (ops : List Op) (r : Runnable) :
    ((SchedState.init n).run ops).count r ≤ 1 :=
  ((inv_run ops _ (inv_init n)) r).1

end PrioritySched
